import Mathlib

/-!
Verification of the change-attribution and metadata-reconciliation engine of the
AI_doc repository: a shallow embedding of `ChangeDetector.parse_diffs`,
`ChangeDetector.identify_changes_in_structure` (src/ai_doc/change_detector.py) and
`Runner.update_existing_item` (src/ai_doc/runner.py and src/repo_agent/runner.py),
with theorems settling the specification claims about them.
-/

namespace AIDoc

/-! ## Unified-diff parsing (`ChangeDetector.parse_diffs`) -/

/-- Character-list test: does the second list start with the first?
Models Python `str.startswith` on the character sequence. -/
def chPre : List Char → List Char → Bool
  | [], _ => true
  | _ :: _, [] => false
  | c :: cs, d :: ds => c == d && chPre cs ds

/-- Python `s.startswith(pre)`. -/
def pyStarts (pre s : String) : Bool := chPre pre.data s.data

/-- Python `line[1:]`. -/
def strTail (s : String) : String := String.mk (s.data.drop 1)

/-- Strip a literal character sequence from the front of the input,
returning the rest on success. -/
def stripLit : List Char → List Char → Option (List Char)
  | [], rest => some rest
  | _ :: _, [] => none
  | c :: cs, d :: ds => if c == d then stripLit cs ds else none

/-- ASCII decimal digit test. -/
def isDig (c : Char) : Bool := decide (48 ≤ c.toNat) && decide (c.toNat ≤ 57)

/-- Consume a maximal run of digits, accumulating their value. -/
def readNat : List Char → Nat → Nat × List Char
  | [], acc => (acc, [])
  | c :: cs, acc => if isDig c then readNat cs (acc * 10 + (c.toNat - 48)) else (acc, c :: cs)

/-- Consume one or more digits (the regex token for a digit run). -/
def digitsNum (l : List Char) : Option (Nat × List Char) :=
  match l with
  | c :: cs => if isDig c then some (readNat cs (c.toNat - 48)) else none
  | [] => none

/-- Model of the anchored regex match performed in `parse_diffs` on each line
against the hunk-header pattern: two at-signs, space, minus, digits (group 1),
comma, digits, space, plus, digits (group 2), comma, digits, space, two at-signs,
then anything.  Returns the two captured groups. -/
def matchHunkHeader (line : String) : Option (Nat × Nat) := do
  let r1 ← stripLit "@@ -".data line.data
  let (a, r2) ← digitsNum r1
  let r3 ← stripLit ",".data r2
  let (_, r4) ← digitsNum r3
  let r5 ← stripLit " +".data r4
  let (b, r6) ← digitsNum r5
  let r7 ← stripLit ",".data r6
  let (_, r8) ← digitsNum r7
  let _ ← stripLit " @@".data r8
  pure (a, b)

/-- The result dictionary of `parse_diffs`: added and removed line records. -/
structure ChangedLines where
  added : List (Nat × String)
  removed : List (Nat × String)
deriving DecidableEq

/-- The loop body of `parse_diffs`, carrying the two cursors
(`line_number_current`, `line_number_change`) through the remaining lines. -/
def parse_go (lnCur lnChg : Nat) : List String → ChangedLines
  | [] => { added := [], removed := [] }
  | line :: rest =>
    match matchHunkHeader line with
    | some (a, b) => parse_go a b rest
    | none =>
      if pyStarts "+" line && !(pyStarts "+++" line) then
        { added := (lnChg, strTail line) :: (parse_go lnCur (lnChg + 1) rest).added,
          removed := (parse_go lnCur (lnChg + 1) rest).removed }
      else if pyStarts "-" line && !(pyStarts "---" line) then
        { added := (parse_go (lnCur + 1) lnChg rest).added,
          removed := (lnCur, strTail line) :: (parse_go (lnCur + 1) lnChg rest).removed }
      else
        parse_go (lnCur + 1) (lnChg + 1) rest

/-- `ChangeDetector.parse_diffs`: both cursors start at 0. -/
def parse_diffs (diffs : List String) : ChangedLines := parse_go 0 0 diffs

/-! ## Change attribution (`ChangeDetector.identify_changes_in_structure`) -/

/-- One element of the `structures` argument: the tuple
`(structure_type, name, start_line, end_line, parent_structure)` produced by
`get_functions_and_classes`.  The parent component is the name of the enclosing
structure, or `None`. -/
structure StructInfo where
  structure_type : String
  name : String
  start_line : Nat
  end_line : Nat
  parent_structure : Option String
deriving DecidableEq

/-- The result of `identify_changes_in_structure`: two Python sets of
`(name, parent_structure)` pairs. -/
structure ChangesInStructures where
  added : Finset (String × Option String)
  removed : Finset (String × Option String)

/-- The inner loop of `identify_changes_in_structure`: for one changed line
number, add every structure whose span contains it to the accumulated set. -/
def attribLine (ln : Nat) (acc : Finset (String × Option String)) :
    List StructInfo → Finset (String × Option String)
  | [] => acc
  | s :: rest =>
    attribLine ln
      (if s.start_line ≤ ln ∧ ln ≤ s.end_line then
        insert (s.name, s.parent_structure) acc
      else acc) rest

/-- The outer loop of `identify_changes_in_structure` over the changed lines of
one change type. -/
def attribKind (structures : List StructInfo) (acc : Finset (String × Option String)) :
    List (Nat × String) → Finset (String × Option String)
  | [] => acc
  | p :: rest => attribKind structures (attribLine p.1 acc structures) rest

/-- `ChangeDetector.identify_changes_in_structure`. -/
def identify_changes_in_structure (changed_lines : ChangedLines)
    (structures : List StructInfo) : ChangesInStructures :=
  { added := attribKind structures ∅ changed_lines.added,
    removed := attribKind structures ∅ changed_lines.removed }

/-! ## Reconciliation (`Runner.update_existing_item`)

The persisted per-file record maps declaration names to code-info records.
`src/repo_agent/runner.py` keeps it as a dict keyed by name;
`src/ai_doc/runner.py` keeps it as a list of records under the key `objects`.
Both are embedded below.  Association lists model Python dicts (update keeps
position, a fresh key is appended). -/

/-- A code-info record as persisted in the project hierarchy: structural
fields plus the documentation payload `md_content`. -/
structure ObjInfo where
  name : String
  type : String
  code_start_line : Nat
  code_end_line : Nat
  parent : Option String
  name_column : Nat
  md_content : String
deriving DecidableEq

/-- The structural information reported for one declaration of the current file
content by `file_handler.generate_file_structure`. -/
structure ExtractedObj where
  name : String
  type : String
  code_start_line : Nat
  code_end_line : Nat
  parent : Option String
  name_column : Nat
deriving DecidableEq

/-- Modelled from the spec: `file_handler.generate_file_structure` and
`get_obj_code_info` are not under src/, so the full record produced for a
declaration that has no existing entry is taken from the spec, which says a
fresh node is created with an empty doc payload (`md_content`). -/
def toObjInfo (e : ExtractedObj) : ObjInfo :=
  { name := e.name, type := e.type, code_start_line := e.code_start_line,
    code_end_line := e.code_end_line, parent := e.parent,
    name_column := e.name_column, md_content := "" }

/-- The in-place refresh of an existing record from the current structural
information: exactly the five assignments in `update_existing_item`
(`type`, `code_start_line`, `code_end_line`, `parent`, `name_column`);
`md_content` (and the stored name) are not touched. -/
def refresh (old : ObjInfo) (e : ExtractedObj) : ObjInfo :=
  { old with type := e.type, code_start_line := e.code_start_line,
             code_end_line := e.code_end_line, parent := e.parent,
             name_column := e.name_column }

/-- Association-list lookup (first entry with the key wins, as in a dict). -/
def alLookup {α : Type} (k : String) : List (String × α) → Option α
  | [] => none
  | p :: rest => if p.1 = k then some p.2 else alLookup k rest

/-- The keys of an association list, in order. -/
def alKeys {α : Type} (d : List (String × α)) : List String := d.map (fun p => p.1)

/-- Replace the value stored under an existing key, keeping its position. -/
def alUpdate {α : Type} (k : String) (v : α) : List (String × α) → List (String × α)
  | [] => []
  | p :: rest => (if p.1 = k then (k, v) else p) :: alUpdate k v rest

/-- Python `del d[k]`. -/
def alErase {α : Type} (k : String) : List (String × α) → List (String × α)
  | [] => []
  | p :: rest => if p.1 = k then alErase k rest else p :: alErase k rest

/-- Delete a list of keys in order (the deletion loop of `update_existing_item`). -/
def alEraseAll {α : Type} : List String → List (String × α) → List (String × α)
  | [], d => d
  | n :: rest, d => alEraseAll rest (alErase n d)

/-- Python `d[k] = v`: update in place if the key exists, else append. -/
def alUpsert {α : Type} (k : String) (v : α) (d : List (String × α)) :
    List (String × α) :=
  match alLookup k d with
  | some _ => alUpdate k v d
  | none => d ++ [(k, v)]

/-- The dict comprehension building `current_info_dict` from the current
objects (later entries overwrite earlier ones with the same name). -/
def dictOfObjs : List (String × ExtractedObj) → List ExtractedObj →
    List (String × ExtractedObj)
  | acc, [] => acc
  | acc, e :: rest => dictOfObjs (alUpsert e.name e acc) rest

/-- `current_info_dict = {obj["name"]: obj for obj in current_objects}`. -/
def current_info_dict (cur : List ExtractedObj) : List (String × ExtractedObj) :=
  dictOfObjs [] cur

/-- `del_obj` in `get_new_objects`: previous names minus current names. -/
def getDelObj (prevNames curNames : List String) : List String :=
  prevNames.filter (fun n => decide (¬ n ∈ curNames))

/-- One iteration of the structure-refresh loop of the repo_agent
`update_existing_item`: refresh the record under the key if present,
otherwise insert the freshly extracted record. -/
def applyCurrentObj (d : List (String × ObjInfo)) (k : String) (e : ExtractedObj) :
    List (String × ObjInfo) :=
  match alLookup k d with
  | some old => alUpdate k (refresh old e) d
  | none => d ++ [(k, toObjInfo e)]

/-- The whole structure-refresh loop over `current_info_dict.items()`. -/
def applyCurrentAll : List (String × ObjInfo) → List (String × ExtractedObj) →
    List (String × ObjInfo)
  | d, [] => d
  | d, (k, e) :: rest => applyCurrentAll (applyCurrentObj d k e) rest

/-- The mutation performed on the per-file record by the repo_agent
`Runner.update_existing_item`: delete the records of declarations that
disappeared, then refresh or insert a record for every current declaration. -/
def reconcileDict (file_dict : List (String × ObjInfo)) (prevNames : List String)
    (cur : List ExtractedObj) : List (String × ObjInfo) :=
  applyCurrentAll
    (alEraseAll (getDelObj prevNames (cur.map (fun e => e.name))) file_dict)
    (current_info_dict cur)

/-! The ai_doc `Runner.update_existing_item` keeps the record as a list of
objects and, unlike the repo_agent version, has no insertion branch. -/

/-- Python `list.remove` driven by the first name match, with `break`. -/
def removeFirst (nm : String) : List ObjInfo → List ObjInfo
  | [] => []
  | o :: rest => if o.name = nm then rest else o :: removeFirst nm rest

/-- The deletion loop of the ai_doc `update_existing_item`. -/
def aiDocDelete (delObjs : List String) (objs : List ObjInfo) : List ObjInfo :=
  delObjs.foldl (fun acc nm => removeFirst nm acc) objs

/-- The refresh loop of the ai_doc `update_existing_item`: records whose name
appears in `new_info_dict` get their structural fields refreshed; nothing is
ever inserted. -/
def aiDocRefresh (infoDict : List (String × ExtractedObj)) (objs : List ObjInfo) :
    List ObjInfo :=
  objs.map (fun o =>
    match alLookup o.name infoDict with
    | some ni => refresh o ni
    | none => o)

/-- The mutation performed on `file["objects"]` by the ai_doc
`Runner.update_existing_item`. -/
def aiDocUpdateObjects (objs : List ObjInfo) (prevNames : List String)
    (cur : List ExtractedObj) : List ObjInfo :=
  aiDocRefresh (current_info_dict cur)
    (aiDocDelete (getDelObj prevNames (cur.map (fun e => e.name))) objs)

/-- `update_existing_item` with the fallible structure extraction made
explicit: `get_new_objects` parses the current version and then the previous
version before any mutation happens, and the later `generate_file_structure`
call parses the same current content again (the extractor is deterministic).
The first component is the record as left in memory when control returns or
the exception propagates; the second is the outcome. -/
def update_existing_itemE (file_dict : List (String × ObjInfo))
    (curE prevE : Except Unit (List ExtractedObj)) :
    List (String × ObjInfo) × Except Unit (List (String × ObjInfo)) :=
  match curE with
  | Except.error e => (file_dict, Except.error e)
  | Except.ok cur =>
    match prevE with
    | Except.error e => (file_dict, Except.error e)
    | Except.ok prevObjs =>
      (reconcileDict file_dict (prevObjs.map (fun o => o.name)) cur,
       Except.ok (reconcileDict file_dict (prevObjs.map (fun o => o.name)) cur))

/-! ## Scheduling (`referencer_list`, the thread pool, and `update_object`) -/

/-- The `referencer_list` loop: for every pair in `changes_in_pyfile["added"]`,
one entry per current object whose name matches. -/
def referencerNames (cur : List ExtractedObj) :
    List (String × Option String) → List String
  | [] => []
  | p :: rest =>
    (cur.filter (fun c => decide (c.name = p.1))).map (fun c => c.name) ++
      referencerNames cur rest

/-- The submission loop: every added pair is submitted once per matching entry
of `referencer_list`. -/
def submissionTargets (referencer_list : List String) :
    List (String × Option String) → List (String × Option String)
  | [] => []
  | p :: rest =>
    (referencer_list.filter (fun r => decide (r = p.1))).map (fun _ => p) ++
      submissionTargets referencer_list rest

/-- The added pairs for which a regeneration task is submitted. -/
def scheduledPairs (added : List (String × Option String))
    (cur : List ExtractedObj) : List (String × Option String) :=
  submissionTargets (referencerNames cur added) added

/-- The pool of `update_object` tasks, run task by task: each task looks up its
record and, when the generator call succeeds, writes the returned text into
`md_content`; a generator failure leaves the record alone and is collected as
the task's exception.  Returns the record and the exceptions in submission
order. -/
def runTasks (gen : String → Except Unit String) :
    List (String × ObjInfo) → List String →
    List (String × ObjInfo) × List Unit
  | fd, [] => (fd, [])
  | fd, nm :: rest =>
    match alLookup nm fd with
    | none => runTasks gen fd rest
    | some obj =>
      match gen nm with
      | Except.ok doc =>
        runTasks gen (alUpdate nm { obj with md_content := doc } fd) rest
      | Except.error e =>
        ((runTasks gen fd rest).1, e :: (runTasks gen fd rest).2)

/-- The collection loop `for future in futures: future.result()`: the first
failed task's exception is re-raised, otherwise the updated record is
returned. -/
def schedulerOutcome (gen : String → Except Unit String)
    (fd : List (String × ObjInfo)) (subs : List String) :
    Except Unit (List (String × ObjInfo)) :=
  match (runTasks gen fd subs).2 with
  | [] => Except.ok (runTasks gen fd subs).1
  | e :: _ => Except.error e

/-! ## Concrete fixtures used to instantiate the theorems -/

/-- Fixture: two nested structures of a file, a class and a method inside it. -/
def structsW : List StructInfo :=
  [{ structure_type := "ClassDef", name := "C", start_line := 1, end_line := 20,
     parent_structure := none },
   { structure_type := "FunctionDef", name := "m", start_line := 3, end_line := 10,
     parent_structure := some "C" }]

/-- Fixture: one added line inside the method. -/
def changedW1 : ChangedLines := { added := [(5, "body")], removed := [] }

/-- Fixture: a superset of `changedW1` per kind. -/
def changedW2 : ChangedLines :=
  { added := [(5, "body"), (12, "tail")], removed := [(4, "gone")] }

/-- Fixture: an existing record for declaration f carrying generated text. -/
def objF : ObjInfo :=
  { name := "f", type := "FunctionDef", code_start_line := 1, code_end_line := 5,
    parent := none, name_column := 4, md_content := "old doc for f" }

/-- Fixture: an existing record for declaration g carrying generated text. -/
def objG : ObjInfo :=
  { name := "g", type := "FunctionDef", code_start_line := 7, code_end_line := 9,
    parent := none, name_column := 4, md_content := "old doc for g" }

/-- Fixture: the current structural information for f (its span grew by one line). -/
def eF : ExtractedObj :=
  { name := "f", type := "FunctionDef", code_start_line := 1, code_end_line := 6,
    parent := none, name_column := 4 }

/-- Fixture: a brand-new declaration h in the current file content. -/
def eH : ExtractedObj :=
  { name := "h", type := "FunctionDef", code_start_line := 8, code_end_line := 10,
    parent := none, name_column := 4 }

/-- Fixture: the persisted per-file record holding f and g. -/
def fdW : List (String × ObjInfo) := [("f", objF), ("g", objG)]

/-- Fixture: the previous declaration names. -/
def prevW : List String := ["f", "g"]

/-- Fixture: the current declarations (g disappeared, h is new). -/
def curW : List ExtractedObj := [eF, eH]

/-- Fixture: the attribution's added pairs (h is new, f was edited in place,
and a pair whose name is no current declaration). -/
def addedW : List (String × Option String) :=
  [("h", none), ("f", none), ("gone", none)]

/-- Fixture: a record for the scheduler claims. -/
def objA : ObjInfo :=
  { name := "a", type := "FunctionDef", code_start_line := 1, code_end_line := 4,
    parent := none, name_column := 4, md_content := "doc a" }

/-- Fixture: a sibling record for the scheduler claims. -/
def objB : ObjInfo :=
  { name := "b", type := "FunctionDef", code_start_line := 6, code_end_line := 9,
    parent := none, name_column := 4, md_content := "doc b" }

/-- Fixture: the per-file record holding a and b. -/
def fdW7 : List (String × ObjInfo) := [("a", objA), ("b", objB)]

/-- Fixture: a generator that fails on declaration a and succeeds elsewhere. -/
def genW : String → Except Unit String :=
  fun n => if n = "a" then Except.error () else Except.ok "fresh doc"

/-! ## Helper lemmas: diff parsing -/

lemma parse_go_header (lnCur lnChg a b : Nat) (line : String) (rest : List String)
    (hh : matchHunkHeader line = some (a, b)) :
    parse_go lnCur lnChg (line :: rest) = parse_go a b rest := by
  simp [parse_go, hh]

lemma parse_go_plus (lnCur lnChg : Nat) (line : String) (rest : List String)
    (hh : matchHunkHeader line = none)
    (hp : (pyStarts "+" line && !(pyStarts "+++" line)) = true) :
    parse_go lnCur lnChg (line :: rest) =
      { added := (lnChg, strTail line) :: (parse_go lnCur (lnChg + 1) rest).added,
        removed := (parse_go lnCur (lnChg + 1) rest).removed } := by
  simp [parse_go, hh, hp]

lemma parse_go_minus (lnCur lnChg : Nat) (line : String) (rest : List String)
    (hh : matchHunkHeader line = none)
    (hp : (pyStarts "+" line && !(pyStarts "+++" line)) = false)
    (hm : (pyStarts "-" line && !(pyStarts "---" line)) = true) :
    parse_go lnCur lnChg (line :: rest) =
      { added := (parse_go (lnCur + 1) lnChg rest).added,
        removed := (lnCur, strTail line) :: (parse_go (lnCur + 1) lnChg rest).removed } := by
  simp [parse_go, hh, hp, hm]

lemma parse_go_context (lnCur lnChg : Nat) (line : String) (rest : List String)
    (hh : matchHunkHeader line = none)
    (hp : (pyStarts "+" line && !(pyStarts "+++" line)) = false)
    (hm : (pyStarts "-" line && !(pyStarts "---" line)) = false) :
    parse_go lnCur lnChg (line :: rest) = parse_go (lnCur + 1) (lnChg + 1) rest := by
  simp [parse_go, hh, hp, hm]

lemma parse_go_no_markers :
    ∀ (diffs : List String) (lnCur lnChg : Nat),
    (∀ l ∈ diffs, (pyStarts "+" l && !(pyStarts "+++" l)) = false) →
    (∀ l ∈ diffs, (pyStarts "-" l && !(pyStarts "---" l)) = false) →
    parse_go lnCur lnChg diffs = { added := [], removed := [] } := by
  intro diffs
  induction diffs with
  | nil => intro lnCur lnChg _ _; rfl
  | cons line rest ih =>
    intro lnCur lnChg hp hm
    have hpl := hp line (List.mem_cons_self _ _)
    have hml := hm line (List.mem_cons_self _ _)
    have hpr : ∀ l ∈ rest, (pyStarts "+" l && !(pyStarts "+++" l)) = false :=
      fun l hl => hp l (List.mem_cons_of_mem _ hl)
    have hmr : ∀ l ∈ rest, (pyStarts "-" l && !(pyStarts "---" l)) = false :=
      fun l hl => hm l (List.mem_cons_of_mem _ hl)
    cases hh : matchHunkHeader line with
    | some ab =>
      rw [parse_go_header lnCur lnChg ab.1 ab.2 line rest (by simpa using hh)]
      exact ih _ _ hpr hmr
    | none =>
      rw [parse_go_context lnCur lnChg line rest hh hpl hml]
      exact ih _ _ hpr hmr

/-! ## Helper lemmas: change attribution -/

lemma mem_attribLine (ln : Nat) (x : String × Option String) :
    ∀ (structures : List StructInfo) (acc : Finset (String × Option String)),
    x ∈ attribLine ln acc structures ↔
      x ∈ acc ∨ ∃ s ∈ structures,
        (s.start_line ≤ ln ∧ ln ≤ s.end_line) ∧ x = (s.name, s.parent_structure) := by
  intro structures
  induction structures with
  | nil => intro acc; simp [attribLine]
  | cons s rest ih =>
    intro acc
    by_cases hc : s.start_line ≤ ln ∧ ln ≤ s.end_line
    · rw [show attribLine ln acc (s :: rest) =
          attribLine ln (insert (s.name, s.parent_structure) acc) rest by
        simp [attribLine, hc]]
      rw [ih]
      simp only [Finset.mem_insert, List.mem_cons]
      constructor
      · rintro ((h | h) | h)
        · exact Or.inr ⟨s, Or.inl rfl, hc, h⟩
        · exact Or.inl h
        · obtain ⟨t, ht, hx⟩ := h
          exact Or.inr ⟨t, Or.inr ht, hx⟩
      · rintro (h | h)
        · exact Or.inl (Or.inr h)
        · obtain ⟨t, (rfl | ht), hcond, hx⟩ := h
          · exact Or.inl (Or.inl hx)
          · exact Or.inr ⟨t, ht, hcond, hx⟩
    · rw [show attribLine ln acc (s :: rest) = attribLine ln acc rest by
        simp [attribLine, hc]]
      rw [ih]
      simp only [List.mem_cons]
      constructor
      · rintro (h | ⟨t, ht, hx⟩)
        · exact Or.inl h
        · exact Or.inr ⟨t, Or.inr ht, hx⟩
      · rintro (h | ⟨t, (rfl | ht), hcond, hx⟩)
        · exact Or.inl h
        · exact absurd hcond hc
        · exact Or.inr ⟨t, ht, hcond, hx⟩

lemma mem_attribKind (x : String × Option String) (structures : List StructInfo) :
    ∀ (lines : List (Nat × String)) (acc : Finset (String × Option String)),
    x ∈ attribKind structures acc lines ↔
      x ∈ acc ∨ ∃ p ∈ lines, ∃ s ∈ structures,
        (s.start_line ≤ p.1 ∧ p.1 ≤ s.end_line) ∧ x = (s.name, s.parent_structure) := by
  intro lines
  induction lines with
  | nil => intro acc; simp [attribKind]
  | cons p rest ih =>
    intro acc
    rw [show attribKind structures acc (p :: rest) =
        attribKind structures (attribLine p.1 acc structures) rest from rfl]
    rw [ih, mem_attribLine]
    simp only [List.mem_cons]
    constructor
    · rintro ((h | ⟨s, hs, hx⟩) | ⟨q, hq, hx⟩)
      · exact Or.inl h
      · exact Or.inr ⟨p, Or.inl rfl, s, hs, hx⟩
      · exact Or.inr ⟨q, Or.inr hq, hx⟩
    · rintro (h | ⟨q, (rfl | hq), hx⟩)
      · exact Or.inl (Or.inl h)
      · exact Or.inl (Or.inr hx)
      · exact Or.inr ⟨q, hq, hx⟩

lemma mem_identify_added (changed_lines : ChangedLines) (structures : List StructInfo)
    (x : String × Option String) :
    x ∈ (identify_changes_in_structure changed_lines structures).added ↔
      ∃ p ∈ changed_lines.added, ∃ s ∈ structures,
        (s.start_line ≤ p.1 ∧ p.1 ≤ s.end_line) ∧ x = (s.name, s.parent_structure) := by
  rw [identify_changes_in_structure]
  rw [mem_attribKind]
  simp

lemma mem_identify_removed (changed_lines : ChangedLines) (structures : List StructInfo)
    (x : String × Option String) :
    x ∈ (identify_changes_in_structure changed_lines structures).removed ↔
      ∃ p ∈ changed_lines.removed, ∃ s ∈ structures,
        (s.start_line ≤ p.1 ∧ p.1 ≤ s.end_line) ∧ x = (s.name, s.parent_structure) := by
  rw [identify_changes_in_structure]
  rw [mem_attribKind]
  simp

/-! ## Helper lemmas: association lists -/

lemma alLookup_update_self {α : Type} (k : String) (v : α) (d : List (String × α)) :
    alLookup k (alUpdate k v d) = (alLookup k d).map (fun _ => v) := by
  induction d with
  | nil => rfl
  | cons p rest ih =>
    by_cases h : p.1 = k
    · simp [alUpdate, alLookup, h]
    · simp [alUpdate, alLookup, h, ih]

lemma mem_alKeys {α : Type} (d : List (String × α)) (q : String × α) (hq : q ∈ d) :
    q.1 ∈ alKeys d := List.mem_map_of_mem _ hq

lemma alLookup_update_other {α : Type} (n k : String) (hnk : n ≠ k) (v : α)
    (d : List (String × α)) : alLookup n (alUpdate k v d) = alLookup n d := by
  have hkn : ¬ k = n := fun he => hnk he.symm
  induction d with
  | nil => rfl
  | cons p rest ih =>
    simp only [alUpdate]
    by_cases h : p.1 = k
    · have hpn : ¬ p.1 = n := by rw [h]; exact hkn
      rw [if_pos h]
      simp only [alLookup]
      rw [if_neg hkn, if_neg hpn, ih]
    · rw [if_neg h]
      simp only [alLookup]
      rw [ih]

lemma alLookup_append_some {α : Type} (n : String) (d l : List (String × α)) (o : α)
    (h : alLookup n d = some o) : alLookup n (d ++ l) = some o := by
  induction d with
  | nil => simp [alLookup] at h
  | cons p rest ih =>
    by_cases hp : p.1 = n
    · simp [alLookup, hp] at h ⊢; exact h
    · simp [alLookup, hp] at h ⊢; exact ih h

lemma alLookup_append_none {α : Type} (n : String) (d l : List (String × α))
    (h : alLookup n d = none) : alLookup n (d ++ l) = alLookup n l := by
  induction d with
  | nil => rfl
  | cons p rest ih =>
    by_cases hp : p.1 = n
    · simp [alLookup, hp] at h
    · simp [alLookup, hp] at h ⊢; exact ih h

lemma alLookup_erase_self {α : Type} (k : String) (d : List (String × α)) :
    alLookup k (alErase k d) = none := by
  induction d with
  | nil => rfl
  | cons p rest ih =>
    by_cases h : p.1 = k
    · simpa [alErase, h] using ih
    · simpa [alErase, alLookup, h] using ih

lemma alLookup_erase_other {α : Type} (n k : String) (hnk : n ≠ k)
    (d : List (String × α)) : alLookup n (alErase k d) = alLookup n d := by
  have hkn : ¬ k = n := fun he => hnk he.symm
  induction d with
  | nil => rfl
  | cons p rest ih =>
    simp only [alErase]
    by_cases h : p.1 = k
    · have hpn : ¬ p.1 = n := by rw [h]; exact hkn
      rw [if_pos h, ih]
      simp only [alLookup]
      rw [if_neg hpn]
    · rw [if_neg h]
      simp only [alLookup]
      rw [ih]

lemma alLookup_eraseAll {α : Type} (n : String) :
    ∀ (names : List String) (d : List (String × α)),
    alLookup n (alEraseAll names d) = if n ∈ names then none else alLookup n d := by
  intro names
  induction names with
  | nil => intro d; simp [alEraseAll]
  | cons m rest ih =>
    intro d
    rw [show alEraseAll (m :: rest) d = alEraseAll rest (alErase m d) from rfl, ih]
    by_cases hnm : n = m
    · subst hnm
      by_cases hr : n ∈ rest
      · simp [hr]
      · simp [hr, alLookup_erase_self]
    · rw [alLookup_erase_other n m hnm]
      by_cases hr : n ∈ rest
      · simp [hr]
      · simp [hr, hnm]

lemma alLookup_eq_none_iff {α : Type} (n : String) (d : List (String × α)) :
    alLookup n d = none ↔ n ∉ alKeys d := by
  induction d with
  | nil => simp [alLookup, alKeys]
  | cons p rest ih =>
    by_cases h : p.1 = n
    · simp [alLookup, alKeys, h]
    · have hnp : ¬ n = p.1 := fun hn => h hn.symm
      simp [alLookup, alKeys, h, ih, hnp]

/-! ## Helper lemmas: the structure-refresh loop -/

lemma applyCurrentObj_other (n k : String) (hnk : n ≠ k)
    (d : List (String × ObjInfo)) (e : ExtractedObj) :
    alLookup n (applyCurrentObj d k e) = alLookup n d := by
  cases hl : alLookup k d with
  | some old =>
    have h1 : applyCurrentObj d k e = alUpdate k (refresh old e) d := by
      rw [applyCurrentObj, hl]
    rw [h1]
    exact alLookup_update_other n k hnk _ d
  | none =>
    have h1 : applyCurrentObj d k e = d ++ [(k, toObjInfo e)] := by
      rw [applyCurrentObj, hl]
    rw [h1]
    cases hn : alLookup n d with
    | some o => exact alLookup_append_some n d _ o hn
    | none =>
      have hkn : ¬ k = n := fun he => hnk he.symm
      rw [alLookup_append_none n d _ hn]
      simp [alLookup, hkn]

lemma applyCurrentObj_self (k : String) (d : List (String × ObjInfo))
    (e : ExtractedObj) :
    alLookup k (applyCurrentObj d k e) =
      some (match alLookup k d with
            | some old => refresh old e
            | none => toObjInfo e) := by
  cases hl : alLookup k d with
  | some old =>
    have h1 : applyCurrentObj d k e = alUpdate k (refresh old e) d := by
      rw [applyCurrentObj, hl]
    rw [h1, alLookup_update_self, hl]
    rfl
  | none =>
    have h1 : applyCurrentObj d k e = d ++ [(k, toObjInfo e)] := by
      rw [applyCurrentObj, hl]
    rw [h1, alLookup_append_none k d _ hl]
    simp [alLookup]

lemma applyCurrentAll_not_mem (n : String) :
    ∀ (pairs : List (String × ExtractedObj)) (d : List (String × ObjInfo)),
    (∀ q ∈ pairs, q.1 ≠ n) →
    alLookup n (applyCurrentAll d pairs) = alLookup n d := by
  intro pairs
  induction pairs with
  | nil => intro d _; rfl
  | cons q rest ih =>
    intro d hq
    rw [show applyCurrentAll d (q :: rest) =
        applyCurrentAll (applyCurrentObj d q.1 q.2) rest from rfl]
    rw [ih _ (fun r hr => hq r (List.mem_cons_of_mem _ hr))]
    exact applyCurrentObj_other n q.1
      (fun h => hq q (List.mem_cons_self _ _) h.symm) d q.2

lemma applyCurrentAll_lookup :
    ∀ (pairs : List (String × ExtractedObj)) (d : List (String × ObjInfo))
      (k : String) (e : ExtractedObj),
    (alKeys pairs).Nodup → (k, e) ∈ pairs →
    alLookup k (applyCurrentAll d pairs) =
      some (match alLookup k d with
            | some old => refresh old e
            | none => toObjInfo e) := by
  intro pairs
  induction pairs with
  | nil => intro d k e _ hmem; simp at hmem
  | cons q rest ih =>
    intro d k e hnodup hmem
    obtain ⟨qk, qe⟩ := q
    rw [show applyCurrentAll d ((qk, qe) :: rest) =
        applyCurrentAll (applyCurrentObj d qk qe) rest from rfl]
    have hkeys : alKeys ((qk, qe) :: rest) = qk :: alKeys rest := rfl
    rw [hkeys] at hnodup
    have hnd : qk ∉ alKeys rest := (List.nodup_cons.mp hnodup).1
    have hndr : (alKeys rest).Nodup := (List.nodup_cons.mp hnodup).2
    rcases List.mem_cons.mp hmem with heq | hmemr
    · have hk : k = qk := congrArg Prod.fst heq
      have he : e = qe := congrArg Prod.snd heq
      subst hk; subst he
      have hkr : ∀ r ∈ rest, r.1 ≠ k := by
        intro r hr hcontra
        exact hnd (hcontra ▸ mem_alKeys rest r hr)
      rw [applyCurrentAll_not_mem k rest _ hkr]
      exact applyCurrentObj_self k d e
    · have hkq : k ≠ qk := by
        intro hcontra
        apply hnd
        have := mem_alKeys rest (k, e) hmemr
        rw [← hcontra]
        exact this
      rw [ih _ k e hndr hmemr, applyCurrentObj_other k qk hkq d qe]

/-! ## Helper lemmas: `current_info_dict` -/

lemma alKeys_update {α : Type} (k : String) (v : α) (d : List (String × α)) :
    alKeys (alUpdate k v d) = alKeys d := by
  induction d with
  | nil => rfl
  | cons p rest ih =>
    by_cases h : p.1 = k
    · simp [alUpdate, alKeys, h] at ih ⊢; exact ih
    · simp [alUpdate, alKeys, h] at ih ⊢; exact ih

lemma mem_keys_upsert {α : Type} (q1 k : String) (v : α)
    (acc : List (String × α)) (h : q1 ∈ alKeys (alUpsert k v acc)) :
    q1 ∈ alKeys acc ∨ q1 = k := by
  rw [alUpsert] at h
  cases hl : alLookup k acc with
  | some o => rw [hl] at h; rw [alKeys_update] at h; exact Or.inl h
  | none =>
    rw [hl] at h
    simp only [alKeys, List.map_append, List.mem_append] at h
    rcases h with h | h
    · exact Or.inl h
    · simp at h; exact Or.inr h

lemma dictOfObjs_key_src :
    ∀ (l : List ExtractedObj) (acc : List (String × ExtractedObj))
      (q : String × ExtractedObj), q ∈ dictOfObjs acc l →
    q.1 ∈ alKeys acc ∨ ∃ e ∈ l, q.1 = e.name := by
  intro l
  induction l with
  | nil => intro acc q hq; exact Or.inl (List.mem_map_of_mem _ hq)
  | cons e rest ih =>
    intro acc q hq
    rw [show dictOfObjs acc (e :: rest) = dictOfObjs (alUpsert e.name e acc) rest
      from rfl] at hq
    rcases ih _ q hq with h | ⟨f, hf, hq1⟩
    · rcases mem_keys_upsert q.1 e.name e acc h with h2 | h2
      · exact Or.inl h2
      · exact Or.inr ⟨e, List.mem_cons_self _ _, h2⟩
    · exact Or.inr ⟨f, List.mem_cons_of_mem _ hf, hq1⟩

lemma dictOfObjs_nodup :
    ∀ (l : List ExtractedObj) (acc : List (String × ExtractedObj)),
    (∀ e ∈ l, e.name ∉ alKeys acc) → (l.map (fun e => e.name)).Nodup →
    dictOfObjs acc l = acc ++ l.map (fun e => (e.name, e)) := by
  intro l
  induction l with
  | nil => intro acc _ _; simp [dictOfObjs]
  | cons e rest ih =>
    intro acc hfresh hnodup
    rw [show dictOfObjs acc (e :: rest) = dictOfObjs (alUpsert e.name e acc) rest
      from rfl]
    have hnone : alLookup e.name acc = none :=
      (alLookup_eq_none_iff _ _).mpr (hfresh e (List.mem_cons_self _ _))
    have hup : alUpsert e.name e acc = acc ++ [(e.name, e)] := by
      rw [alUpsert, hnone]
    rw [hup]
    have hmapcons : (e :: rest).map (fun e => e.name) =
        e.name :: rest.map (fun e => e.name) := rfl
    rw [hmapcons] at hnodup
    have hnd1 : e.name ∉ rest.map (fun e => e.name) := (List.nodup_cons.mp hnodup).1
    have hnd2 : (rest.map (fun e => e.name)).Nodup := (List.nodup_cons.mp hnodup).2
    have hrest : ∀ f ∈ rest, f.name ∉ alKeys (acc ++ [(e.name, e)]) := by
      intro f hf hcontra
      simp only [alKeys, List.map_append, List.mem_append] at hcontra
      rcases hcontra with h | h
      · exact hfresh f (List.mem_cons_of_mem _ hf) h
      · simp only [List.map_cons, List.map_nil, List.mem_cons, List.not_mem_nil,
          or_false] at h
        exact hnd1 (by rw [← h]; exact List.mem_map_of_mem _ hf)
    rw [ih _ hrest hnd2]
    simp

lemma current_info_dict_eq (cur : List ExtractedObj)
    (hnodup : (cur.map (fun e => e.name)).Nodup) :
    current_info_dict cur = cur.map (fun e => (e.name, e)) := by
  rw [current_info_dict, dictOfObjs_nodup cur [] (by simp [alKeys]) hnodup]
  simp

/-! ## Helper lemmas: the task pool -/

lemma runTasks_cons_none (gen : String → Except Unit String)
    (fd : List (String × ObjInfo)) (nm : String) (rest : List String)
    (h : alLookup nm fd = none) :
    runTasks gen fd (nm :: rest) = runTasks gen fd rest := by
  rw [runTasks, h]

lemma runTasks_cons_ok (gen : String → Except Unit String)
    (fd : List (String × ObjInfo)) (nm : String) (rest : List String)
    (obj : ObjInfo) (doc : String)
    (h : alLookup nm fd = some obj) (hg : gen nm = Except.ok doc) :
    runTasks gen fd (nm :: rest) =
      runTasks gen (alUpdate nm { obj with md_content := doc } fd) rest := by
  rw [runTasks, h, hg]

lemma runTasks_cons_error (gen : String → Except Unit String)
    (fd : List (String × ObjInfo)) (nm : String) (rest : List String)
    (obj : ObjInfo) (e : Unit)
    (h : alLookup nm fd = some obj) (hg : gen nm = Except.error e) :
    runTasks gen fd (nm :: rest) =
      ((runTasks gen fd rest).1, e :: (runTasks gen fd rest).2) := by
  rw [runTasks, h, hg]

lemma runTasks_lookup_of_gen_error (gen : String → Except Unit String) (nm : String)
    (hge : gen nm = Except.error ()) :
    ∀ (subs : List String) (fd : List (String × ObjInfo)),
    alLookup nm (runTasks gen fd subs).1 = alLookup nm fd := by
  intro subs
  induction subs with
  | nil => intro fd; rfl
  | cons h rest ih =>
    intro fd
    cases hl : alLookup h fd with
    | none => rw [runTasks_cons_none gen fd h rest hl]; exact ih fd
    | some obj =>
      cases hg : gen h with
      | ok doc =>
        have hne : nm ≠ h := by
          intro hcontra
          rw [hcontra, hg] at hge
          exact Except.noConfusion hge
        rw [runTasks_cons_ok gen fd h rest obj doc hl hg, ih]
        exact alLookup_update_other nm h hne _ fd
      | error e =>
        rw [runTasks_cons_error gen fd h rest obj e hl hg]
        exact ih fd

lemma runTasks_lookup_not_mem (gen : String → Except Unit String) (k : String) :
    ∀ (subs : List String) (fd : List (String × ObjInfo)), k ∉ subs →
    alLookup k (runTasks gen fd subs).1 = alLookup k fd := by
  intro subs
  induction subs with
  | nil => intro fd _; rfl
  | cons h rest ih =>
    intro fd hk
    have hne : k ≠ h := fun hc => hk (hc ▸ List.mem_cons_self _ _)
    have hkr : k ∉ rest := fun hc => hk (List.mem_cons_of_mem _ hc)
    cases hl : alLookup h fd with
    | none => rw [runTasks_cons_none gen fd h rest hl]; exact ih fd hkr
    | some obj =>
      cases hg : gen h with
      | ok doc =>
        rw [runTasks_cons_ok gen fd h rest obj doc hl hg, ih _ hkr]
        exact alLookup_update_other k h hne _ fd
      | error e =>
        rw [runTasks_cons_error gen fd h rest obj e hl hg]
        exact ih fd hkr

lemma runTasks_errors_ne_nil (gen : String → Except Unit String) (nm : String)
    (hge : gen nm = Except.error ()) :
    ∀ (subs : List String) (fd : List (String × ObjInfo)),
    nm ∈ subs → alLookup nm fd ≠ none → (runTasks gen fd subs).2 ≠ [] := by
  intro subs
  induction subs with
  | nil => intro fd hmem _; simp at hmem
  | cons h rest ih =>
    intro fd hmem hsome
    by_cases hh : h = nm
    · subst hh
      cases hl : alLookup h fd with
      | none => exact absurd hl hsome
      | some obj =>
        rw [runTasks_cons_error gen fd h rest obj () hl hge]
        simp
    · have hmemr : nm ∈ rest := by
        rcases List.mem_cons.mp hmem with hc | hc
        · exact absurd hc.symm hh
        · exact hc
      cases hl : alLookup h fd with
      | none => rw [runTasks_cons_none gen fd h rest hl]; exact ih fd hmemr hsome
      | some obj =>
        cases hg : gen h with
        | ok doc =>
          rw [runTasks_cons_ok gen fd h rest obj doc hl hg]
          apply ih
          · exact hmemr
          · rw [alLookup_update_other nm h (fun hc => hh hc.symm) _ fd]
            exact hsome
        | error e =>
          rw [runTasks_cons_error gen fd h rest obj e hl hg]
          simp

lemma runTasks_sibling (gen : String → Except Unit String) (sib doc : String)
    (hok : gen sib = Except.ok doc) :
    ∀ (subs : List String) (fd : List (String × ObjInfo)) (obj : ObjInfo),
    sib ∈ subs → alLookup sib fd = some obj →
    alLookup sib (runTasks gen fd subs).1 = some { obj with md_content := doc } := by
  intro subs
  induction subs with
  | nil => intro fd obj hmem _; simp at hmem
  | cons h rest ih =>
    intro fd obj hmem hsome
    by_cases hh : h = sib
    · subst hh
      rw [runTasks_cons_ok gen fd h rest obj doc hsome hok]
      by_cases hr : h ∈ rest
      · have hupd : alLookup h (alUpdate h { obj with md_content := doc } fd) =
            some { obj with md_content := doc } := by
          rw [alLookup_update_self, hsome]
          rfl
        have := ih (alUpdate h { obj with md_content := doc } fd)
          { obj with md_content := doc } hr hupd
        simpa using this
      · rw [runTasks_lookup_not_mem gen h rest _ hr]
        rw [alLookup_update_self, hsome]
        rfl
    · have hmemr : sib ∈ rest := by
        rcases List.mem_cons.mp hmem with hc | hc
        · exact absurd hc.symm hh
        · exact hc
      cases hl : alLookup h fd with
      | none => rw [runTasks_cons_none gen fd h rest hl]; exact ih fd obj hmemr hsome
      | some o =>
        cases hg : gen h with
        | ok d2 =>
          rw [runTasks_cons_ok gen fd h rest o d2 hl hg]
          apply ih
          · exact hmemr
          · rw [alLookup_update_other sib h (fun hc => hh hc.symm) _ fd]
            exact hsome
        | error e =>
          rw [runTasks_cons_error gen fd h rest o e hl hg]
          exact ih fd obj hmemr hsome

/-! ## Helper lemmas: scheduled pairs and reconciliation lookups -/

lemma mem_referencerNames (cur : List ExtractedObj) (n : String) :
    ∀ added : List (String × Option String),
    n ∈ referencerNames cur added ↔
      (∃ p ∈ added, p.1 = n) ∧ ∃ c ∈ cur, c.name = n := by
  intro added
  induction added with
  | nil => simp [referencerNames]
  | cons p rest ih =>
    rw [show referencerNames cur (p :: rest) =
        (cur.filter (fun c => decide (c.name = p.1))).map (fun c => c.name) ++
          referencerNames cur rest from rfl]
    rw [List.mem_append, ih]
    constructor
    · rintro (h | ⟨⟨q, hq, hq1⟩, hc⟩)
      · rw [List.mem_map] at h
        obtain ⟨c, hcf, hcn⟩ := h
        rw [List.mem_filter] at hcf
        have hcp : c.name = p.1 := of_decide_eq_true hcf.2
        exact ⟨⟨p, List.mem_cons_self _ _, by rw [← hcn, hcp]⟩, c, hcf.1, hcn⟩
      · exact ⟨⟨q, List.mem_cons_of_mem _ hq, hq1⟩, hc⟩
    · rintro ⟨⟨q, hq, hq1⟩, c, hc, hcn⟩
      rcases List.mem_cons.mp hq with rfl | hqr
      · left
        rw [List.mem_map]
        refine ⟨c, ?_, hcn⟩
        rw [List.mem_filter]
        exact ⟨hc, decide_eq_true (by rw [hcn, hq1])⟩
      · right
        exact ⟨⟨q, hqr, hq1⟩, c, hc, hcn⟩

lemma mem_submissionTargets (refs : List String) (q : String × Option String) :
    ∀ added : List (String × Option String),
    q ∈ submissionTargets refs added ↔ q ∈ added ∧ q.1 ∈ refs := by
  intro added
  induction added with
  | nil => simp [submissionTargets]
  | cons p rest ih =>
    rw [show submissionTargets refs (p :: rest) =
        (refs.filter (fun r => decide (r = p.1))).map (fun _ => p) ++
          submissionTargets refs rest from rfl]
    rw [List.mem_append, ih]
    constructor
    · rintro (h | ⟨hq, hr⟩)
      · rw [List.mem_map] at h
        obtain ⟨r, hrf, hrq⟩ := h
        rw [List.mem_filter] at hrf
        have hrp : r = p.1 := of_decide_eq_true hrf.2
        subst hrq
        exact ⟨List.mem_cons_self _ _, by rw [← hrp]; exact hrf.1⟩
      · exact ⟨List.mem_cons_of_mem _ hq, hr⟩
    · rintro ⟨hq, hr⟩
      rcases List.mem_cons.mp hq with rfl | hqr
      · left
        rw [List.mem_map]
        exact ⟨q.1, List.mem_filter.mpr ⟨hr, decide_eq_true rfl⟩, rfl⟩
      · right
        exact ⟨hqr, hr⟩

lemma mem_scheduledPairs (added : List (String × Option String))
    (cur : List ExtractedObj) (q : String × Option String) :
    q ∈ scheduledPairs added cur ↔
      q ∈ added ∧ q.1 ∈ cur.map (fun e => e.name) := by
  rw [scheduledPairs, mem_submissionTargets, mem_referencerNames]
  constructor
  · rintro ⟨hq, _, c, hc, hcn⟩
    exact ⟨hq, by rw [← hcn]; exact List.mem_map_of_mem _ hc⟩
  · rintro ⟨hq, hn⟩
    rw [List.mem_map] at hn
    obtain ⟨c, hc, hcn⟩ := hn
    exact ⟨hq, ⟨⟨q, hq, rfl⟩, c, hc, hcn⟩⟩

lemma reconcileDict_lookup_removed (fd : List (String × ObjInfo))
    (prevNames : List String) (cur : List ExtractedObj) (d : String)
    (hdprev : d ∈ prevNames) (hdcur : d ∉ cur.map (fun e => e.name)) :
    alLookup d (reconcileDict fd prevNames cur) = none := by
  rw [reconcileDict]
  have hdel : d ∈ getDelObj prevNames (cur.map (fun e => e.name)) := by
    rw [getDelObj, List.mem_filter]
    exact ⟨hdprev, decide_eq_true hdcur⟩
  have hkeys : ∀ q ∈ current_info_dict cur, q.1 ≠ d := by
    intro q hq hcontra
    rcases dictOfObjs_key_src cur [] q hq with h | ⟨e, he, h⟩
    · simp [alKeys] at h
    · exact hdcur (List.mem_map.mpr ⟨e, he, by rw [← h]; exact hcontra⟩)
  rw [applyCurrentAll_not_mem d _ _ hkeys, alLookup_eraseAll, if_pos hdel]

lemma reconcileDict_lookup_current (fd : List (String × ObjInfo))
    (prevNames : List String) (cur : List ExtractedObj)
    (hnodup : (cur.map (fun e => e.name)).Nodup) (e : ExtractedObj) (he : e ∈ cur) :
    alLookup e.name (reconcileDict fd prevNames cur) =
      some (match alLookup e.name fd with
            | some old => refresh old e
            | none => toObjInfo e) := by
  rw [reconcileDict]
  have hname : e.name ∈ cur.map (fun f => f.name) := List.mem_map_of_mem _ he
  have hnotdel : e.name ∉ getDelObj prevNames (cur.map (fun f => f.name)) := by
    intro hc
    rw [getDelObj, List.mem_filter] at hc
    exact (of_decide_eq_true hc.2) hname
  have hpairs : current_info_dict cur = cur.map (fun f => (f.name, f)) :=
    current_info_dict_eq cur hnodup
  have hkeyseq : alKeys (cur.map (fun f => (f.name, f))) = cur.map (fun f => f.name) := by
    simp [alKeys, List.map_map, Function.comp]
  have hkeysnd : (alKeys (cur.map (fun f => (f.name, f)))).Nodup := by
    rw [hkeyseq]; exact hnodup
  have hmem : (e.name, e) ∈ cur.map (fun f => (f.name, f)) := List.mem_map_of_mem _ he
  rw [hpairs, applyCurrentAll_lookup _ _ e.name e hkeysnd hmem,
      alLookup_eraseAll, if_neg hnotdel]

/-! ## The claims -/

/-- C1: the claim says that after `update_existing_item` the declaration names
recorded under the file equal the current declaration names, for both cited
implementations.  The ai_doc implementation violates it: on a record with no
objects and a current content consisting of the single new declaration h, it
leaves the record empty (it has no insertion branch), while the repo_agent
implementation produces exactly the record for h. -/
theorem claim_C1 :
    (aiDocUpdateObjects [] [] [eH]).map (fun o => o.name) = [] ∧
    ¬ (aiDocUpdateObjects [] [] [eH]).map (fun o => o.name) = ["h"] ∧
    alKeys (reconcileDict [] [] [eH]) = ["h"] := by decide

/-- C2: `parse_diffs` resets both cursors to the two captured groups at every
hunk header; a plus line (not a file header) emits `(new_cursor, content)` into
added and increments the new cursor; a minus line (not a file header) emits
`(old_cursor, content)` into removed and increments the old cursor; any other
line increments both cursors and emits nothing; and on the concrete scenario
the result is added = [(2, "line2")], removed = []. -/
theorem claim_C2 :
    (∀ (lnCur lnChg a b : Nat) (line : String) (rest : List String),
      matchHunkHeader line = some (a, b) →
      parse_go lnCur lnChg (line :: rest) = parse_go a b rest) ∧
    (∀ (lnCur lnChg : Nat) (line : String) (rest : List String),
      matchHunkHeader line = none →
      (pyStarts "+" line && !(pyStarts "+++" line)) = true →
      parse_go lnCur lnChg (line :: rest) =
        { added := (lnChg, strTail line) :: (parse_go lnCur (lnChg + 1) rest).added,
          removed := (parse_go lnCur (lnChg + 1) rest).removed }) ∧
    (∀ (lnCur lnChg : Nat) (line : String) (rest : List String),
      matchHunkHeader line = none →
      (pyStarts "+" line && !(pyStarts "+++" line)) = false →
      (pyStarts "-" line && !(pyStarts "---" line)) = true →
      parse_go lnCur lnChg (line :: rest) =
        { added := (parse_go (lnCur + 1) lnChg rest).added,
          removed := (lnCur, strTail line) :: (parse_go (lnCur + 1) lnChg rest).removed }) ∧
    (∀ (lnCur lnChg : Nat) (line : String) (rest : List String),
      matchHunkHeader line = none →
      (pyStarts "+" line && !(pyStarts "+++" line)) = false →
      (pyStarts "-" line && !(pyStarts "---" line)) = false →
      parse_go lnCur lnChg (line :: rest) = parse_go (lnCur + 1) (lnChg + 1) rest) ∧
    parse_diffs ["@@ -1,2 +1,3 @@", " line1", "+line2", " line3"] =
      { added := [(2, "line2")], removed := [] } :=
  ⟨parse_go_header, parse_go_plus, parse_go_minus, parse_go_context, by decide⟩

theorem claim_C2_witness :
    parse_go 5 7 ["@@ -3,1 +4,2 @@", "+z"] = parse_go 3 4 ["+z"] ∧
    parse_go 3 4 ["+z"] =
      { added := (4, strTail "+z") :: (parse_go 3 5 []).added,
        removed := (parse_go 3 5 []).removed } :=
  ⟨claim_C2.1 5 7 3 4 "@@ -3,1 +4,2 @@" ["+z"] (by decide),
   claim_C2.2.1 3 4 "+z" [] (by decide) (by decide)⟩

/-- C3 counterexample: the input ["+x"] contains no hunk header, yet
`parse_diffs` returns a nonempty added list, refuting the claim that every
header-free input yields two empty lists. -/
theorem claim_C3_counterexample :
    matchHunkHeader "+x" = none ∧
    parse_diffs ["+x"] = { added := [(0, "x")], removed := [] } ∧
    ¬ parse_diffs ["+x"] = { added := [], removed := [] } := by decide

/-- C3 (amended): for every input sequence of diff lines that contains no hunk
header and also no change-marker line (no line beginning with plus except the
plus-plus-plus file header, and none beginning with minus except the
minus-minus-minus file header), `parse_diffs` returns a result whose added and
removed lists are both empty. -/
theorem claim_C3 (diffs : List String)
    (_hnohdr : ∀ l ∈ diffs, matchHunkHeader l = none)
    (hnoplus : ∀ l ∈ diffs, (pyStarts "+" l && !(pyStarts "+++" l)) = false)
    (hnominus : ∀ l ∈ diffs, (pyStarts "-" l && !(pyStarts "---" l)) = false) :
    parse_diffs diffs = { added := [], removed := [] } :=
  parse_go_no_markers diffs 0 0 hnoplus hnominus

theorem claim_C3_witness :
    parse_diffs ["--- a/f.py", "+++ b/f.py", " ctx"] =
      { added := [], removed := [] } :=
  claim_C3 ["--- a/f.py", "+++ b/f.py", " ctx"] (by decide) (by decide) (by decide)

/-- C4: `identify_changes_in_structure` returns, for each kind, exactly the
set of (name, parent) pairs of the structures whose span [start_line, end_line]
contains some changed line number of that kind; a single line is attributed to
every structure whose span contains it. -/
theorem claim_C4 (changed_lines : ChangedLines) (structures : List StructInfo) :
    (∀ x : String × Option String,
      x ∈ (identify_changes_in_structure changed_lines structures).added ↔
        ∃ p ∈ changed_lines.added, ∃ s ∈ structures,
          (s.start_line ≤ p.1 ∧ p.1 ≤ s.end_line) ∧
          x = (s.name, s.parent_structure)) ∧
    (∀ x : String × Option String,
      x ∈ (identify_changes_in_structure changed_lines structures).removed ↔
        ∃ p ∈ changed_lines.removed, ∃ s ∈ structures,
          (s.start_line ≤ p.1 ∧ p.1 ≤ s.end_line) ∧
          x = (s.name, s.parent_structure)) :=
  ⟨mem_identify_added changed_lines structures,
   mem_identify_removed changed_lines structures⟩

theorem claim_C4_witness :
    (("m", some "C") : String × Option String) ∈
      (identify_changes_in_structure changedW1 structsW).added :=
  ((claim_C4 changedW1 structsW).1 ("m", some "C")).mpr (by decide)

/-- C5: the set of pairs for which a regeneration task is submitted is exactly
the added pairs whose name is a current declaration name; a pair only in the
removed attribution is never submitted; and a declaration in the previous set
but not in the current set is deleted from the record and no submitted pair
bears its name. -/
theorem claim_C5 (fd : List (String × ObjInfo)) (prevNames : List String)
    (cur : List ExtractedObj) (added : List (String × Option String)) (d : String)
    (hdprev : d ∈ prevNames) (hdcur : d ∉ cur.map (fun e => e.name)) :
    (∀ q : String × Option String,
      q ∈ scheduledPairs added cur ↔
        q ∈ added ∧ q.1 ∈ cur.map (fun e => e.name)) ∧
    d ∉ alKeys (reconcileDict fd prevNames cur) ∧
    ∀ q ∈ scheduledPairs added cur, q.1 ≠ d := by
  refine ⟨mem_scheduledPairs added cur, ?_, ?_⟩
  · exact (alLookup_eq_none_iff _ _).mp
      (reconcileDict_lookup_removed fd prevNames cur d hdprev hdcur)
  · intro q hq hcontra
    have hc := ((mem_scheduledPairs added cur q).mp hq).2
    rw [hcontra] at hc
    exact hdcur hc

theorem claim_C5_witness :
    "g" ∉ alKeys (reconcileDict fdW prevW curW) ∧
    (∀ q ∈ scheduledPairs addedW curW, q.1 ≠ "g") ∧
    ((("h", none) : String × Option String) ∈ scheduledPairs addedW curW ↔
      (("h", none) : String × Option String) ∈ addedW ∧
        "h" ∈ curW.map (fun e => e.name)) :=
  ⟨(claim_C5 fdW prevW curW addedW "g" (by decide) (by decide)).2.1,
   (claim_C5 fdW prevW curW addedW "g" (by decide) (by decide)).2.2,
   (claim_C5 fdW prevW curW addedW "g" (by decide) (by decide)).1 ("h", none)⟩

/-- C6: for a current declaration whose name has an existing record,
reconciliation stores exactly the refreshed record: the five structural fields
take the extractor's values while `md_content` is the old one; for a current
declaration with no existing record, a fresh record with empty `md_content` is
stored. -/
theorem claim_C6 (fd : List (String × ObjInfo)) (prevNames : List String)
    (cur : List ExtractedObj) (hnodup : (cur.map (fun e => e.name)).Nodup)
    (e : ExtractedObj) (he : e ∈ cur) :
    (∀ old : ObjInfo, alLookup e.name fd = some old →
      alLookup e.name (reconcileDict fd prevNames cur) = some (refresh old e) ∧
      (refresh old e).md_content = old.md_content ∧
      (refresh old e).type = e.type ∧
      (refresh old e).code_start_line = e.code_start_line ∧
      (refresh old e).code_end_line = e.code_end_line ∧
      (refresh old e).parent = e.parent ∧
      (refresh old e).name_column = e.name_column) ∧
    (alLookup e.name fd = none →
      alLookup e.name (reconcileDict fd prevNames cur) = some (toObjInfo e) ∧
      (toObjInfo e).md_content = "") := by
  constructor
  · intro old hold
    refine ⟨?_, rfl, rfl, rfl, rfl, rfl, rfl⟩
    rw [reconcileDict_lookup_current fd prevNames cur hnodup e he, hold]
  · intro hnone
    refine ⟨?_, rfl⟩
    rw [reconcileDict_lookup_current fd prevNames cur hnodup e he, hnone]

theorem claim_C6_witness :
    (alLookup eF.name (reconcileDict fdW prevW curW) = some (refresh objF eF) ∧
     (refresh objF eF).md_content = objF.md_content ∧
     (refresh objF eF).type = eF.type ∧
     (refresh objF eF).code_start_line = eF.code_start_line ∧
     (refresh objF eF).code_end_line = eF.code_end_line ∧
     (refresh objF eF).parent = eF.parent ∧
     (refresh objF eF).name_column = eF.name_column) ∧
    (alLookup eH.name (reconcileDict fdW prevW curW) = some (toObjInfo eH) ∧
     (toObjInfo eH).md_content = "") :=
  ⟨(claim_C6 fdW prevW curW (by decide) eF (by decide)).1 objF (by decide),
   (claim_C6 fdW prevW curW (by decide) eH (by decide)).2 (by decide)⟩

/-- C7 counterexample: with a generator that fails on declaration a, the
collection loop re-raises the exception, so `update_existing_item` ends in the
error outcome instead of returning normally with a success and failure count:
the failure is not caught and the batch is aborted. -/
theorem claim_C7_counterexample :
    schedulerOutcome genW fdW7 ["a", "b"] = Except.error () := rfl

/-- C7 (amended): when the generator fails for one scheduled declaration, that
node's `md_content` is left unchanged and sibling tasks still run to completion
(a sibling with a successful generator call gets its `md_content` written), but
the failure is not caught: the collection loop re-raises it, so the batch ends
in the error outcome and no succeeded or failed count is returned. -/
theorem claim_C7 (gen : String → Except Unit String)
    (fd : List (String × ObjInfo)) (subs : List String) (nm : String)
    (hfail : gen nm = Except.error ()) :
    alLookup nm (runTasks gen fd subs).1 = alLookup nm fd ∧
    (nm ∈ subs → alLookup nm fd ≠ none →
      schedulerOutcome gen fd subs = Except.error ()) ∧
    ∀ (sib doc : String) (obj : ObjInfo), gen sib = Except.ok doc → sib ∈ subs →
      alLookup sib fd = some obj →
      alLookup sib (runTasks gen fd subs).1 =
        some { obj with md_content := doc } := by
  refine ⟨runTasks_lookup_of_gen_error gen nm hfail subs fd, ?_, ?_⟩
  · intro hmem hsome
    have hne := runTasks_errors_ne_nil gen nm hfail subs fd hmem hsome
    rw [schedulerOutcome]
    cases herr : (runTasks gen fd subs).2 with
    | nil => exact absurd herr hne
    | cons e rest => rfl
  · intro sib doc obj hok hmem hsome
    exact runTasks_sibling gen sib doc hok subs fd obj hmem hsome

theorem claim_C7_witness :
    alLookup "a" (runTasks genW fdW7 ["a", "b"]).1 = alLookup "a" fdW7 ∧
    schedulerOutcome genW fdW7 ["a", "b"] = Except.error () ∧
    alLookup "b" (runTasks genW fdW7 ["a", "b"]).1 =
      some { objB with md_content := "fresh doc" } :=
  ⟨(claim_C7 genW fdW7 ["a", "b"] "a" rfl).1,
   (claim_C7 genW fdW7 ["a", "b"] "a" rfl).2.1 (by decide) (by decide),
   (claim_C7 genW fdW7 ["a", "b"] "a" rfl).2.2 "b" "fresh doc" objB rfl
     (by decide) (by decide)⟩

/-- C8: if the current declaration set cannot be obtained (the structure
extraction raises inside `get_new_objects`, before any mutation), the record is
handed back exactly as it was and the error propagates; when both extractions
succeed the record becomes the reconciled one. -/
theorem claim_C8 (fd : List (String × ObjInfo))
    (prevE : Except Unit (List ExtractedObj)) (e : Unit) :
    update_existing_itemE fd (Except.error e) prevE = (fd, Except.error e) ∧
    (∀ n, alLookup n (update_existing_itemE fd (Except.error e) prevE).1 =
      alLookup n fd) ∧
    ∀ cur prevObjs : List ExtractedObj,
      update_existing_itemE fd (Except.ok cur) (Except.ok prevObjs) =
        (reconcileDict fd (prevObjs.map (fun o => o.name)) cur,
         Except.ok (reconcileDict fd (prevObjs.map (fun o => o.name)) cur)) :=
  ⟨rfl, fun _ => rfl, fun _ _ => rfl⟩

theorem claim_C8_witness :
    update_existing_itemE fdW (Except.error ()) (Except.ok [eF]) =
      (fdW, Except.error ()) :=
  (claim_C8 fdW (Except.ok [eF]) ()).1

/-- C9: `identify_changes_in_structure` is monotonic in the changed lines:
if the second input contains every changed line of the first per kind, each
attributed set of the first is a subset of the corresponding set of the
second. -/
theorem claim_C9 (c1 c2 : ChangedLines) (structures : List StructInfo)
    (hadd : ∀ p ∈ c1.added, p ∈ c2.added)
    (hrem : ∀ p ∈ c1.removed, p ∈ c2.removed) :
    (identify_changes_in_structure c1 structures).added ⊆
      (identify_changes_in_structure c2 structures).added ∧
    (identify_changes_in_structure c1 structures).removed ⊆
      (identify_changes_in_structure c2 structures).removed := by
  constructor
  · intro x hx
    obtain ⟨p, hp, s, hs, hcond, hxs⟩ := (mem_identify_added _ _ x).mp hx
    exact (mem_identify_added _ _ x).mpr ⟨p, hadd p hp, s, hs, hcond, hxs⟩
  · intro x hx
    obtain ⟨p, hp, s, hs, hcond, hxs⟩ := (mem_identify_removed _ _ x).mp hx
    exact (mem_identify_removed _ _ x).mpr ⟨p, hrem p hp, s, hs, hcond, hxs⟩

theorem claim_C9_witness :
    (identify_changes_in_structure changedW1 structsW).added ⊆
      (identify_changes_in_structure changedW2 structsW).added ∧
    (identify_changes_in_structure changedW1 structsW).removed ⊆
      (identify_changes_in_structure changedW2 structsW).removed :=
  claim_C9 changedW1 changedW2 structsW (by decide) (by decide)

/-- C10: every attributed pair names some structure of the structures argument
(with its parent), and with an empty structures list both attributed sets are
empty whatever changed. -/
theorem claim_C10 (changed_lines : ChangedLines) (structures : List StructInfo) :
    (∀ x : String × Option String,
      (x ∈ (identify_changes_in_structure changed_lines structures).added ∨
       x ∈ (identify_changes_in_structure changed_lines structures).removed) →
      ∃ s ∈ structures, x = (s.name, s.parent_structure)) ∧
    (identify_changes_in_structure changed_lines []).added = ∅ ∧
    (identify_changes_in_structure changed_lines []).removed = ∅ := by
  refine ⟨?_, ?_, ?_⟩
  · intro x hx
    rcases hx with hx | hx
    · obtain ⟨p, _, s, hs, _, hxs⟩ := (mem_identify_added _ _ x).mp hx
      exact ⟨s, hs, hxs⟩
    · obtain ⟨p, _, s, hs, _, hxs⟩ := (mem_identify_removed _ _ x).mp hx
      exact ⟨s, hs, hxs⟩
  · apply Finset.eq_empty_iff_forall_not_mem.mpr
    intro x hx
    obtain ⟨p, _, s, hs, _⟩ := (mem_identify_added _ _ x).mp hx
    simp at hs
  · apply Finset.eq_empty_iff_forall_not_mem.mpr
    intro x hx
    obtain ⟨p, _, s, hs, _⟩ := (mem_identify_removed _ _ x).mp hx
    simp at hs

theorem claim_C10_witness :
    ∃ s ∈ structsW, (("C", none) : String × Option String) =
      (s.name, s.parent_structure) :=
  (claim_C10 changedW1 structsW).1 ("C", none) (Or.inl (by decide))

end AIDoc
